import Mathlib

/-!
# Verification of the web-rwkv V4 runtime core

A shallow embedding of the tensor layer (`src/tensor.rs`), the V4 model state
and job builder (`src/runtime/v4.rs`), together with proofs of the stated
properties of the specification.

Conventions of the embedding:
* device buffers are represented by their byte size; f32 values by `ℚ`;
* recorded tensor operations become constructors of an `Op` inductive carrying
  the operands the properties talk about; a user-supplied hook op is opaque and
  is represented by its hook tag;
* fallible constructors return `Except`/`Option`.
-/

/-! ## Shape algebra (`src/tensor.rs`, `TensorShape`) -/

/-- A 4-axis tensor shape; axis 0 is the fastest-moving one. -/
structure Shape4 where
  d0 : Nat
  d1 : Nat
  d2 : Nat
  d3 : Nat
deriving DecidableEq, Repr

/-- `TensorShape::len`: number of elements. -/
def Shape4.len (s : Shape4) : Nat := s.d0 * s.d1 * s.d2 * s.d3

/-- `Tensor::shape_index`: flattened index of `(i0,i1,i2,i3)`,
computed as `((i3*d2+i2)*d1+i1)*d0+i0`. -/
def shapeIndex (s i : Shape4) : Nat :=
  ((i.d3 * s.d2 + i.d2) * s.d1 + i.d1) * s.d0 + i.d0

/-! ## GPU tensor construction (`src/tensor.rs`, `TensorGpu::new`) -/

/-- A `TensorBuffer`: the underlying buffer (represented by its byte size)
plus a byte offset into it. -/
structure TensorBuffer where
  bufferSize : Nat
  offset : Nat
deriving DecidableEq, Repr

/-- `TensorError` (`src/tensor.rs`). -/
inductive TensorError where
  | size (a b : Nat)
  | shape (a b : Shape4)
  | overflow (bufferSize offset size : Nat)
  | deviceError
deriving DecidableEq, Repr

/-- `TensorGpu::new` (`src/tensor.rs` lines 183-204): builds a GPU tensor of
element byte-size `byteSize` over `data`; the source errors when
`data.offset + size >= data.buffer.size()`. -/
def tensorGpuNew (byteSize : Nat) (shape : Shape4) (data : TensorBuffer) :
    Except TensorError (Shape4 × TensorBuffer) :=
  let size := shape.len * byteSize
  if data.offset + size ≥ data.bufferSize then
    .error (.overflow data.bufferSize data.offset size)
  else
    .ok (shape, data)

/-! ## Model info and the V4 state (`src/runtime/v4.rs`) -/

/-- `ModelInfo` (the fields the V4 runtime reads). -/
structure ModelInfo where
  num_layer : Nat
  num_emb : Nat
  num_hidden : Nat
  num_vocab : Nat
  head_size : Nat
deriving DecidableEq, Repr

/-- `f32::MIN`, the minimum finite f32: `-(2 - 2^-23) * 2^127`. -/
def f32Min : ℚ := -(2 ^ 128 - 2 ^ 104)

/-- One per-layer block of the initial state: five channels of `num_emb`
values each — `x`-shift, `aa`, `bb` all zero, `pp = f32::MIN`, ffn `x`-shift
zero (`State::init`, `src/runtime/v4.rs` lines 142-149). -/
def layerBlock (e : Nat) : List ℚ :=
  List.replicate e 0 ++ List.replicate e 0 ++ List.replicate e 0 ++
    List.replicate e f32Min ++ List.replicate e 0

/-- The data of `State::init` (`src/runtime/v4.rs` lines 138-155): one block
per layer, concatenated. -/
def stateInitData (info : ModelInfo) : List ℚ :=
  ((List.range info.num_layer).map fun _ => layerBlock info.num_emb).flatten

/-- The shape `State::init` declares: `(num_emb, 5*num_layer, 1, 1)`. -/
def stateInitShape (info : ModelInfo) : Shape4 :=
  ⟨info.num_emb, 5 * info.num_layer, 1, 1⟩

/-- `State::att` (`src/runtime/v4.rs` lines 157-161): the axis-1 range of the
view, `start = 5*layer`, `end = start + 4`. -/
def attRange (layer : Nat) : Nat × Nat := (5 * layer, 5 * layer + 4)

/-- `State::ffn` (`src/runtime/v4.rs` lines 163-166): the axis-1 range of the
view, `start..=start` with `start = 5*layer + 4`. -/
def ffnRange (layer : Nat) : Nat × Nat := (5 * layer + 4, 5 * layer + 5)

/-- The shape of the device state allocated by `ModelRuntime::new`
(`src/runtime/v4.rs` line 423): `(num_emb, 5*num_layer, num_batch, 1)`. -/
def runtimeStateShape (info : ModelInfo) (numBatch : Nat) : Shape4 :=
  ⟨info.num_emb, 5 * info.num_layer, numBatch, 1⟩

/-- The initial contents of the device state allocated by `ModelRuntime::new`
(`src/runtime/v4.rs` lines 424-436): `num_layer * num_batch` copies of the
per-layer block. -/
def runtimeStateData (info : ModelInfo) (numBatch : Nat) : List ℚ :=
  ((List.range (info.num_layer * numBatch)).map fun _ => layerBlock info.num_emb).flatten

/-! ## Infer info and redirect

The `InferInfo`/`InferRedirect` types live in the repository's `infer.rs`,
which is not among the provided sources; they are modelled from the
specification (§4.3). -/

/-- Modelled from the spec: one batch of an `InferInfo` — its token list and
whether the last logit of that batch is required (`(tokens: u16[], output:
bool)`, spec §4.3). -/
structure InferInfoBatch where
  tokens : List Nat
  output : Bool
deriving DecidableEq, Repr

/-- Modelled from the spec: `num_token = Σ_b tokens[b].len()` (spec §4.3). -/
def numToken (info : List InferInfoBatch) : Nat :=
  (info.map fun b => b.tokens.length).sum

/-- Modelled from the spec: `redirect = { headers: sorted positions of tokens
whose logits must be emitted; outputs: contiguous output slot ranges per
batch }` (spec §4.3). -/
structure InferRedirect where
  headers : List Nat
  outputs : List (Nat × Nat)
deriving DecidableEq, Repr

/-- Modelled from the spec: computes `redirect` by scanning the batches in
order, with `pin` the packed input position and `pout` the next output slot.
A batch with `output = true` and at least one token contributes the packed
position of its last token to `headers` and receives the one-slot output
range `(pout, pout+1)`; every other batch receives the empty range
`(pout, pout)`. -/
def redirectAux : Nat → Nat → List InferInfoBatch → List Nat × List (Nat × Nat)
  | _, _, [] => ([], [])
  | pin, pout, b :: rest =>
    let n := b.tokens.length
    if b.output ∧ n ≠ 0 then
      let (hs, os) := redirectAux (pin + n) (pout + 1) rest
      ((pin + n - 1) :: hs, (pout, pout + 1) :: os)
    else
      let (hs, os) := redirectAux (pin + n) pout rest
      (hs, (pout, pout) :: os)

/-- Modelled from the spec: the redirect of an `InferInfo`. -/
def redirectOf (info : List InferInfoBatch) : InferRedirect :=
  let (hs, os) := redirectAux 0 0 info
  ⟨hs, os⟩

/-! ## Hooks, buffers, and recorded operations (`src/runtime/v4.rs`) -/

/-- `Hook` (`src/runtime/v4.rs` lines 266-294). -/
inductive Hook where
  | postEmbedLoaded
  | postEmbedLayerNorm
  | preAtt (l : Nat)
  | postAttLayerNorm (l : Nat)
  | preAttTokenShift (l : Nat)
  | postAttTokenShift (l : Nat)
  | preAttLinear (l : Nat)
  | postAttLinear (l : Nat)
  | preAttTimeMix (l : Nat)
  | postAttTimeMix (l : Nat)
  | preAttOut (l : Nat)
  | postAttOut (l : Nat)
  | postAtt (l : Nat)
  | preFfn (l : Nat)
  | postFfnLayerNorm (l : Nat)
  | preFfnTokenShift (l : Nat)
  | postFfnTokenShift (l : Nat)
  | preFfnLinear (l : Nat)
  | postFfnLinear (l : Nat)
  | postFfnActivate (l : Nat)
  | preFfnChannelMix (l : Nat)
  | postFfnChannelMix (l : Nat)
  | postFfn (l : Nat)
  | preHead
  | postHeadLayerNorm
  | postHead
deriving DecidableEq, Repr

/-- The buffers an op can mention: the `Runtime`/`Header` working tensors and
the state views (`src/runtime/v4.rs` lines 193-264). -/
inductive BufId where
  | tokens | cursors | input
  | attX | attKX | attVX | attRX | attK | attV | attR | attO
  | ffnX | ffnKX | ffnRX | ffnK | ffnV | ffnR
  | auxX | headX | headO
  | stateAtt (layer : Nat)
  | stateFfn (layer : Nat)
deriving DecidableEq, Repr

/-- `Activation` of a matmul. -/
inductive Activation where
  | none
  | squaredRelu
deriving DecidableEq, Repr

/-- A recorded tensor operation, carrying the operands the verified
properties mention. `blit` carries the axis-1 source and destination ranges;
`copyTensor` is the encoder-level `copy_tensor`; `hook` stands for an opaque
user-supplied hook op; `empty` is the no-op recorded for an absent hook. -/
inductive Op where
  | empty
  | embed
  | layerNorm (x : BufId)
  | tokenShift (stateView x out : BufId)
  | matmul (x out : BufId) (act : Activation) (turbo : Bool)
  | blit (src dst : BufId) (srcRange dstRange : Nat × Nat)
  | timeMixV4 (stateView : BufId)
  | channelMix (stateView : BufId)
  | add (a b : BufId)
  | discount (x : BufId) (factor : ℚ)
  | hook (h : Hook)
  | copyTensor (src dst : BufId)
deriving DecidableEq, Repr

/-- `Model::RESCALE_LAYER` (`src/runtime/v4.rs` line 40). -/
def RESCALE_LAYER : Nat := 6

/-- Modelled from the spec: `MIN_TOKEN_CHUNK_SIZE` is declared in `infer.rs`,
outside the provided sources; the spec gives its value as the minimum token
chunk, e.g. 32 (spec §4.3). -/
def MIN_TOKEN_CHUNK_SIZE : Nat := 32

/-- `turbo` (`src/runtime/v4.rs` lines 460-462). -/
def turbo (num_token : Nat) : Bool :=
  num_token % MIN_TOKEN_CHUNK_SIZE == 0

/-- `hook_op` (`src/runtime/v4.rs` lines 464-473): the user-supplied op for a
present hook (opaque, represented by its tag), `TensorOp::empty()` otherwise.
The hook table is abstracted by its domain `hooks : Hook → Bool`. -/
def hookOp (hooks : Hook → Bool) (h : Hook) : Op :=
  if hooks h then Op.hook h else Op.empty

/-! ## The layer pass (`build_layer`, `src/runtime/v4.rs` lines 646-843) -/

/-- `build_layer`: the operations recorded into one layer's command buffer, in
recording order (encoder copies and compute-pass ops flattened in sequence). -/
def buildLayer (hooks : Hook → Bool) (info : ModelInfo) (index nt : Nat) : List Op :=
  [Op.copyTensor .input .attX]
  ++ [hookOp hooks (.preAtt index),
      Op.layerNorm .attX,
      hookOp hooks (.postAttLayerNorm index),
      hookOp hooks (.preAttTokenShift index),
      Op.tokenShift (.stateAtt index) .attX .attKX,
      Op.tokenShift (.stateAtt index) .attX .attVX,
      Op.tokenShift (.stateAtt index) .attX .attRX,
      hookOp hooks (.postAttTokenShift index),
      hookOp hooks (.preAttLinear index),
      Op.matmul .attKX .attK .none (turbo nt),
      Op.matmul .attVX .attV .none (turbo nt),
      Op.matmul .attRX .attR .none (turbo nt),
      hookOp hooks (.postAttLinear index),
      hookOp hooks (.preAttTimeMix index),
      Op.blit .attX .auxX (0, nt) (0, nt),
      Op.timeMixV4 (.stateAtt index),
      Op.blit .auxX .attX (0, nt) (0, nt),
      hookOp hooks (.postAttTimeMix index),
      hookOp hooks (.preAttOut index),
      Op.matmul .attX .attO .none (turbo nt),
      hookOp hooks (.postAttOut index),
      Op.add .input .attO,
      hookOp hooks (.postAtt index)]
  ++ [Op.copyTensor .attO .ffnX]
  ++ [hookOp hooks (.preFfn index),
      Op.layerNorm .ffnX,
      hookOp hooks (.postFfnLayerNorm index),
      hookOp hooks (.preFfnTokenShift index),
      Op.tokenShift (.stateFfn index) .ffnX .ffnKX,
      Op.tokenShift (.stateFfn index) .ffnX .ffnRX,
      hookOp hooks (.postFfnTokenShift index),
      hookOp hooks (.preFfnLinear index),
      Op.matmul .ffnKX .ffnK .squaredRelu (turbo nt),
      hookOp hooks (.postFfnActivate index),
      Op.matmul .ffnK .ffnV .none (turbo nt),
      Op.matmul .ffnRX .ffnR .none (turbo nt),
      hookOp hooks (.postFfnLinear index),
      hookOp hooks (.preFfnChannelMix index),
      Op.channelMix (.stateFfn index),
      hookOp hooks (.postFfnChannelMix index),
      Op.add .attO .ffnX,
      hookOp hooks (.postFfn index)]
  ++ (if (index + 1) % RESCALE_LAYER = 0 then [Op.discount .ffnX (1 / 2)] else [])
  ++ (if index ≠ info.num_layer - 1 then [Op.copyTensor .ffnX .input] else [])

/-! ## The head pass plan (`src/runtime/v4.rs` lines 520-542) -/

/-- The `while` loop of the head blit planning (`src/runtime/v4.rs` lines
525-540), with `hstart`/`hend` the loop's `start`/`end` indices: scans the
sorted `headers`, and at each group boundary pushes a blit of `ffn_x` rows
`first..=last` into `head_x` rows `hstart..hend`.  The source's
`assert_eq!(last - first + 1, end - start)` becomes `none` on failure. -/
def headLoop (headers : List Nat) (hstart hend : Nat) : Option (List Op) :=
  if _h : hend ≤ headers.length then
    if hend = headers.length ∨ headers.getD (hend - 1) 0 + 1 ≠ headers.getD hend 0 then
      let first := headers.getD hstart 0
      let last := headers.getD (hend - 1) 0
      if last - first + 1 = hend - hstart then
        (headLoop headers hend (hend + 1)).map
          (Op.blit .ffnX .headX (first, last + 1) (hstart, hend) :: ·)
      else none
    else headLoop headers hstart (hend + 1)
  else some []
termination_by headers.length + 1 - hend

/-- The head input selection (`src/runtime/v4.rs` lines 520-542): when
`num_token == 1 || num_token == num_header` reuse `ffn_x` with no blits,
otherwise run the blit loop into the compact `head_x`. -/
def headPlan (headers : List Nat) (nt : Nat) : Option (List Op × BufId) :=
  if nt = 1 ∨ nt = headers.length then some ([], .ffnX)
  else (headLoop headers 0 1).map (·, .headX)

/-! ## Prelude, header pass, and the whole build
(`src/runtime/v4.rs` lines 475-643, 845-883) -/

/-- The prelude ops (`src/runtime/v4.rs` lines 546-564): optional GPU embed
lookup, then embedding layer-norm, with their hooks. -/
def preludeOps (hooks : Hook → Bool) (embedGpu : Bool) : List Op :=
  (if embedGpu then [Op.embed] else [])
  ++ [hookOp hooks .postEmbedLoaded,
      Op.layerNorm .input,
      hookOp hooks .postEmbedLayerNorm]

/-- `build_header` (`src/runtime/v4.rs` lines 845-883): when `num_header > 0`
the pending head blits followed by head layer-norm and head matmul (with
`turbo(num_header)`); otherwise an empty command buffer. -/
def buildHeader (hooks : Hook → Bool) (headOps : List Op) (headIn : BufId)
    (numHeader : Nat) : List Op :=
  if 0 < numHeader then
    headOps
    ++ [hookOp hooks .preHead,
        Op.layerNorm headIn,
        hookOp hooks .postHeadLayerNorm,
        Op.matmul headIn .headO .none (turbo numHeader),
        hookOp hooks .postHead]
  else []

/-- The `(PassId, command buffer)` pairs in recording order (`build`,
`src/runtime/v4.rs` lines 566-619): the prelude pass, one pass per layer, the
header pass.  `PassId` lives in the repository's `model.rs`, outside the
provided sources; modelled from the spec as a counter that increases by one
per recorded pass (spec §4.3 step 6). -/
def buildRecord (hooks : Hook → Bool) (embedGpu : Bool) (info : ModelInfo)
    (nt : Nat) (headers : List Nat) : Option (List (Nat × List Op)) :=
  (headPlan headers nt).map fun plan =>
    (0, preludeOps hooks embedGpu)
    :: ((List.range info.num_layer).map fun i => (i + 1, buildLayer hooks info i nt))
    ++ [(info.num_layer + 1, buildHeader hooks plan.1 plan.2 headers.length)]

/-- The job object (`InferJob`, `src/runtime/v4.rs` lines 296-307), with the
tensors represented by their shapes. -/
structure InferJobM where
  commands : List (List Op)
  redirect : InferRedirect
  embedGpu : Bool
  cursorsShape : Shape4
  tokensShape : Shape4
  inputShape : Shape4
  outputShape : Shape4
deriving DecidableEq, Repr

/-- The final sort of the recorded `(PassId, buffer)` pairs
(`src/runtime/v4.rs` lines 627-631, `sorted_by_key(|x| x.0)`). -/
def sortByPassId (l : List (Nat × List Op)) : List (Nat × List Op) :=
  l.insertionSort fun a b => a.1 ≤ b.1

/-- `build` (`src/runtime/v4.rs` lines 478-643).  For `num_token == 0` an
empty job with no commands; otherwise the recorded passes sorted by `PassId`.
Buffer shapes follow `Runtime::new` and `Header::new` (lines 218-264). -/
def build (hooks : Hook → Bool) (embedGpu : Bool) (info : ModelInfo)
    (seed : List InferInfoBatch) : Option InferJobM :=
  let nt := numToken seed
  let rd := redirectOf seed
  let nh := rd.headers.length
  let job : List (List Op) → InferJobM := fun commands =>
    { commands := commands
      redirect := rd
      embedGpu := embedGpu
      cursorsShape := ⟨nt, 1, 1, 1⟩
      tokensShape := ⟨nt, 1, 1, 1⟩
      inputShape := ⟨info.num_emb, nt, 1, 1⟩
      outputShape := ⟨info.num_vocab, nh, 1, 1⟩ }
  if nt = 0 then some (job [])
  else
    (buildRecord hooks embedGpu info nt rd.headers).map fun record =>
      job ((sortByPassId record).map Prod.snd)

/-! ## The job interface (`src/runtime/v4.rs` lines 309-382) -/

/-- `InferJob::check` (`src/runtime/v4.rs` lines 314-316):
`input.num_token() == self.cursors.shape()[0] && info.redirect() == self.redirect`. -/
def checkM (job : InferJobM) (input inferInfo : List InferInfoBatch) : Bool :=
  (numToken input == job.cursorsShape.d0) && (redirectOf inferInfo == job.redirect)

/-- The uploads `InferJob::load` performs. -/
inductive Upload where
  | cursors
  | inputEmbeds
  | tokenIds
deriving DecidableEq, Repr

/-- `InferJob::load` (`src/runtime/v4.rs` lines 318-364): returns the job
unchanged with no uploads when `input.num_token() == 0`; otherwise uploads the
cursors and either the host-embedded vectors or the raw token ids (the
uploaded contents are abstracted to their kinds here). -/
def loadM (job : InferJobM) (input : List InferInfoBatch) :
    InferJobM × List Upload :=
  if numToken input = 0 then (job, [])
  else (job, [Upload.cursors, if job.embedGpu then Upload.tokenIds else Upload.inputEmbeds])

/-- Modelled from the spec: `slice` over axis-1 of a host tensor (spec §4.1)
produces the sub-tensor of rows `[s, e)`; it fails when the range escapes the
shape. Only the resulting shape is tracked. -/
def sliceAxis1 (shape : Shape4) (s e : Nat) : Option Shape4 :=
  if s ≤ e ∧ e ≤ shape.d1 then some ⟨shape.d0, e - s, shape.d2, shape.d3⟩ else none

/-- The slot collection of `InferJob::back` (`src/runtime/v4.rs` lines
371-381): one output slice per `redirect.outputs` entry, collected
fallibly (`try_collect`). -/
def backSlots (outputShape : Shape4) : List (Nat × Nat) → Option (List Shape4)
  | [] => some []
  | (s, e) :: rest =>
    match sliceAxis1 outputShape s e, backSlots outputShape rest with
    | some sh, some l => some (sh :: l)
    | _, _ => Option.none

/-- `InferJob::back`: the shapes of the per-batch output slots. -/
def backM (job : InferJobM) : Option (List Shape4) :=
  backSlots job.outputShape job.redirect.outputs

/-! ## Observation helpers over recorded op lists -/

/-- The `(turbo)` flag of a matmul op, `none` for every other op. -/
def matmulFlag : Op → Option Bool
  | .matmul _ _ _ t => some t
  | _ => none

/-- The `(target, factor)` of a discount op, `none` for every other op. -/
def discountOf : Op → Option (BufId × ℚ)
  | .discount x q => some (x, q)
  | _ => none

/-- The individual `(source row, destination row)` copies a blit performs,
read off its axis-1 ranges. -/
def blitRows : Op → List (Nat × Nat)
  | .blit _ _ (s1, s2) (d1, _) => (List.range (s2 - s1)).map fun i => (s1 + i, d1 + i)
  | _ => []

/-- All row copies performed by a list of ops, in order. -/
def rowPairs (ops : List Op) : List (Nat × Nat) :=
  ops.flatMap blitRows

/-- Two adjacent blits copy source ranges separated by a gap (so each blit's
source run is maximal). -/
def blitGap : Op → Op → Bool
  | .blit _ _ s _, .blit _ _ t _ => s.2 < t.1
  | _, _ => true

/-! ## Concrete instances used by witnesses -/

/-- The empty hook table. -/
def hooks0 : Hook → Bool := fun _ => false

/-- A small 12-layer model info. -/
def info12 : ModelInfo := ⟨12, 2, 4, 8, 1⟩

/-- A minimal 1-layer model info. -/
def info1 : ModelInfo := ⟨1, 1, 1, 1, 1⟩

/-! ## C1 — GPU tensor construction bound -/

/-- A general characterization of `TensorGpu::new` as implemented: it
succeeds exactly when `offset + size < buffer.size` (strict), due to the
`>=` comparison in the source. -/
theorem tensorGpuNew_ok_iff (byteSize : Nat) (shape : Shape4) (data : TensorBuffer) :
    tensorGpuNew byteSize shape data = .ok (shape, data) ↔
      data.offset + shape.len * byteSize < data.bufferSize := by
  show (if data.offset + shape.len * byteSize ≥ data.bufferSize then
      Except.error (TensorError.overflow data.bufferSize data.offset (shape.len * byteSize))
    else Except.ok (shape, data)) = Except.ok (shape, data) ↔ _
  split
  · rename_i h
    constructor
    · intro h'
      cases h'
    · intro h'
      omega
  · rename_i h
    constructor
    · intro _
      omega
    · intro _
      rfl

/-- C1: the claim states GPU tensor construction succeeds exactly when
`byte_offset + shape.len*sizeof(T) ≤ buffer.size`. The code's `>=` comparison
rejects an exactly-fitting tensor: with a 4-byte buffer, offset 0 and a
`(1,1,1,1)` f32 tensor (4 bytes), the invariant `0 + 4 ≤ 4` holds yet
`TensorGpu::new` returns the OVERFLOW error. -/
theorem c1_exact_fit_rejected :
    0 + (Shape4.mk 1 1 1 1).len * 4 ≤ 4 ∧
      tensorGpuNew 4 ⟨1, 1, 1, 1⟩ ⟨4, 0⟩ =
        .error (.overflow 4 0 ((Shape4.mk 1 1 1 1).len * 4)) := by
  exact ⟨by decide, rfl⟩

/-! ## C3 — state view ranges -/

/-- C3: `State::att(l)` views the axis-1 range `[5l, 5l+4)` and
`State::ffn(l)` the range `[5l+4, 5l+5)`; for every layer the two ranges are
disjoint, and the union of all att and ffn ranges over `l < L` is exactly
`[0, 5L)`. -/
theorem c3_state_views (L : Nat) :
    (∀ l, attRange l = (5 * l, 5 * l + 4) ∧ ffnRange l = (5 * l + 4, 5 * l + 5)) ∧
    (∀ l, l < L →
      Disjoint (Finset.Ico (attRange l).1 (attRange l).2)
        (Finset.Ico (ffnRange l).1 (ffnRange l).2)) ∧
    ((Finset.range L).biUnion fun l =>
        Finset.Ico (attRange l).1 (attRange l).2 ∪
        Finset.Ico (ffnRange l).1 (ffnRange l).2) = Finset.range (5 * L) := by
  refine ⟨fun l => ⟨rfl, rfl⟩, fun l _ => ?_, ?_⟩
  · simp only [attRange, ffnRange, Finset.disjoint_left, Finset.mem_Ico]
    intro a ha hb
    omega
  · ext x
    simp only [attRange, ffnRange, Finset.mem_biUnion, Finset.mem_range,
      Finset.mem_union, Finset.mem_Ico]
    constructor
    · rintro ⟨l, hl, h | h⟩ <;> omega
    · intro hx
      exact ⟨x / 5, by omega, by omega⟩

/-- Witness for C3 at `L = 2`, `l = 1`. -/
theorem c3_witness :
    Disjoint (Finset.Ico (attRange 1).1 (attRange 1).2)
        (Finset.Ico (ffnRange 1).1 (ffnRange 1).2) ∧
      ((Finset.range 2).biUnion fun l =>
        Finset.Ico (attRange l).1 (attRange l).2 ∪
        Finset.Ico (ffnRange l).1 (ffnRange l).2) = Finset.range 10 :=
  ⟨(c3_state_views 2).2.1 1 (by decide), (c3_state_views 2).2.2⟩

/-! ## C8 — the turbo flag -/

/-- An absent or user-supplied hook op is never one of the builder's matmuls. -/
theorem matmulFlag_hookOp (hooks : Hook → Bool) (h : Hook) :
    matmulFlag (hookOp hooks h) = none := by
  unfold hookOp
  split <;> rfl

/-- C8: `turbo(n)` is true exactly when `n % MIN_TOKEN_CHUNK_SIZE == 0`, and
the seven matmuls recorded in a layer pass all receive `turbo(num_token)` as
their flag (hook-supplied ops are not matmuls recorded by the builder). -/
theorem c8_turbo_flag :
    (∀ n, turbo n = true ↔ n % MIN_TOKEN_CHUNK_SIZE = 0) ∧
    (∀ (hooks : Hook → Bool) (info : ModelInfo) (index nt : Nat),
      (buildLayer hooks info index nt).filterMap matmulFlag =
        List.replicate 7 (turbo nt)) := by
  constructor
  · intro n
    simp [turbo]
  · intro hooks info index nt
    simp only [buildLayer, List.filterMap_append, List.filterMap_cons,
      matmulFlag_hookOp, List.filterMap_nil,
      apply_ite (List.filterMap matmulFlag)]
    simp [matmulFlag, List.replicate]

/-! ## C6 — the per-layer rescale discount -/

/-- An absent or user-supplied hook op is never one of the builder's
discounts. -/
theorem discountOf_hookOp (hooks : Hook → Bool) (h : Hook) :
    discountOf (hookOp hooks h) = none := by
  unfold hookOp
  split <;> rfl

/-- Counterexample to C6 as stated: at layer index 5 of a 12-layer model the
rescale condition `(5+1) % RESCALE_LAYER == 0` holds, yet the recorded layer
pass does not end with the discount op — it ends with the `ffn_x → input`
copy; so "the pass ends with the ×0.5 discount exactly when
`(l+1) % RESCALE_LAYER == 0`" is false. -/
theorem c6_counterexample :
    ¬(((buildLayer hooks0 info12 5 1).getLast? =
        some (Op.discount .ffnX (1 / 2))) ↔ (5 + 1) % RESCALE_LAYER = 0) := by
  decide

/-- C6 (amended): the layer pass records an in-place `×0.5` discount of
`ffn_x` exactly when `(index+1) % RESCALE_LAYER == 0` (and records no
discount op otherwise); when recorded, the discount is the last op of the
pass except for the trailing `ffn_x → input` copy present on non-final
layers. -/
theorem c6_rescale_discount (hooks : Hook → Bool) (info : ModelInfo)
    (index nt : Nat) :
    ((buildLayer hooks info index nt).filterMap discountOf =
      if (index + 1) % RESCALE_LAYER = 0 then [(BufId.ffnX, (1 : ℚ) / 2)] else []) ∧
    ((index + 1) % RESCALE_LAYER = 0 →
      ∃ ops, buildLayer hooks info index nt =
        ops ++ [Op.discount .ffnX (1 / 2)] ++
          (if index ≠ info.num_layer - 1 then [Op.copyTensor .ffnX .input] else [])) := by
  constructor
  · simp only [buildLayer, List.filterMap_append, List.filterMap_cons,
      discountOf_hookOp, List.filterMap_nil,
      apply_ite (List.filterMap discountOf)]
    simp [discountOf]
  · intro h
    refine ⟨?_, ?_⟩
    · exact [Op.copyTensor .input .attX]
        ++ [hookOp hooks (.preAtt index),
            Op.layerNorm .attX,
            hookOp hooks (.postAttLayerNorm index),
            hookOp hooks (.preAttTokenShift index),
            Op.tokenShift (.stateAtt index) .attX .attKX,
            Op.tokenShift (.stateAtt index) .attX .attVX,
            Op.tokenShift (.stateAtt index) .attX .attRX,
            hookOp hooks (.postAttTokenShift index),
            hookOp hooks (.preAttLinear index),
            Op.matmul .attKX .attK .none (turbo nt),
            Op.matmul .attVX .attV .none (turbo nt),
            Op.matmul .attRX .attR .none (turbo nt),
            hookOp hooks (.postAttLinear index),
            hookOp hooks (.preAttTimeMix index),
            Op.blit .attX .auxX (0, nt) (0, nt),
            Op.timeMixV4 (.stateAtt index),
            Op.blit .auxX .attX (0, nt) (0, nt),
            hookOp hooks (.postAttTimeMix index),
            hookOp hooks (.preAttOut index),
            Op.matmul .attX .attO .none (turbo nt),
            hookOp hooks (.postAttOut index),
            Op.add .input .attO,
            hookOp hooks (.postAtt index)]
        ++ [Op.copyTensor .attO .ffnX]
        ++ [hookOp hooks (.preFfn index),
            Op.layerNorm .ffnX,
            hookOp hooks (.postFfnLayerNorm index),
            hookOp hooks (.preFfnTokenShift index),
            Op.tokenShift (.stateFfn index) .ffnX .ffnKX,
            Op.tokenShift (.stateFfn index) .ffnX .ffnRX,
            hookOp hooks (.postFfnTokenShift index),
            hookOp hooks (.preFfnLinear index),
            Op.matmul .ffnKX .ffnK .squaredRelu (turbo nt),
            hookOp hooks (.postFfnActivate index),
            Op.matmul .ffnK .ffnV .none (turbo nt),
            Op.matmul .ffnRX .ffnR .none (turbo nt),
            hookOp hooks (.postFfnLinear index),
            hookOp hooks (.preFfnChannelMix index),
            Op.channelMix (.stateFfn index),
            hookOp hooks (.postFfnChannelMix index),
            Op.add .attO .ffnX,
            hookOp hooks (.postFfn index)]
    · simp [buildLayer, h]

/-- Witness for C6 (amended) at layer index 5 of the 12-layer model. -/
theorem c6_witness :
    ((buildLayer hooks0 info12 5 1).filterMap discountOf =
      if (5 + 1) % RESCALE_LAYER = 0 then [(BufId.ffnX, (1 : ℚ) / 2)] else []) ∧
    ∃ ops, buildLayer hooks0 info12 5 1 =
      ops ++ [Op.discount .ffnX (1 / 2)] ++
        (if 5 ≠ info12.num_layer - 1 then [Op.copyTensor .ffnX .input] else []) :=
  ⟨(c6_rescale_discount hooks0 info12 5 1).1,
   (c6_rescale_discount hooks0 info12 5 1).2 (by decide)⟩

/-! ## C2 — the initial state pattern -/

theorem layerBlock_length (e : Nat) : (layerBlock e).length = 5 * e := by
  simp [layerBlock]
  ring

theorem replicate_append_getElem (x : ℚ) (rest : List ℚ) (e i : Nat) (hi : i < e) :
    (List.replicate e x ++ rest)[i]? = some x := by
  rw [List.getElem?_append_left (by simpa using hi)]
  simp [List.getElem?_replicate, hi]

theorem replicate_append_skip (x : ℚ) (rest : List ℚ) (e j : Nat) :
    (List.replicate e x ++ rest)[e + j]? = rest[j]? := by
  rw [List.getElem?_append_right (by simp)]
  simp

theorem append_skip_getElem (a rest : List ℚ) (j : Nat) :
    (a ++ rest)[a.length + j]? = rest[j]? := by
  rw [List.getElem?_append_right (by omega)]
  simp

/-- Indexing inside one per-layer block: channel `k < 5`, embedding index
`i < e`. -/
theorem layerBlock_getElem (e k i : Nat) (hk : k < 5) (hi : i < e) :
    (layerBlock e)[k * e + i]? = some (if k = 3 then f32Min else 0) := by
  unfold layerBlock
  simp only [List.append_assoc]
  interval_cases k
  · rw [show 0 * e + i = i by ring, replicate_append_getElem _ _ _ _ hi]
    norm_num
  · rw [show 1 * e + i = e + i by ring, replicate_append_skip,
      replicate_append_getElem _ _ _ _ hi]
    norm_num
  · rw [show 2 * e + i = e + (e + i) by ring, replicate_append_skip,
      replicate_append_skip, replicate_append_getElem _ _ _ _ hi]
    norm_num
  · rw [show 3 * e + i = e + (e + (e + i)) by ring, replicate_append_skip,
      replicate_append_skip, replicate_append_skip,
      replicate_append_getElem _ _ _ _ hi]
    norm_num
  · rw [show 4 * e + i = e + (e + (e + (e + i))) by ring, replicate_append_skip,
      replicate_append_skip, replicate_append_skip, replicate_append_skip]
    have h5 : (List.replicate e (0 : ℚ))[i]? = some 0 := by
      simp [List.getElem?_replicate, hi]
    rw [h5]
    norm_num

theorem flatten_replicate_length (n : Nat) (xs : List ℚ) :
    ((List.replicate n xs).flatten).length = n * xs.length := by
  induction n with
  | zero => simp
  | succ m ih =>
    rw [List.replicate_succ, List.flatten_cons, List.length_append, ih]
    ring

theorem flatten_replicate_getElem (xs : List ℚ) (n m j : Nat) (hm : m < n)
    (hj : j < xs.length) :
    ((List.replicate n xs).flatten)[m * xs.length + j]? = xs[j]? := by
  induction n generalizing m with
  | zero => omega
  | succ k ih =>
    rw [List.replicate_succ, List.flatten_cons]
    cases m with
    | zero =>
      rw [show 0 * xs.length + j = j by ring]
      rw [List.getElem?_append_left hj]
    | succ p =>
      rw [show (p + 1) * xs.length + j = xs.length + (p * xs.length + j) by ring,
        append_skip_getElem]
      exact ih p (by omega)

/-- The init data is layer-count many copies of the per-layer block. -/
theorem stateInitData_eq (info : ModelInfo) :
    stateInitData info =
      (List.replicate info.num_layer (layerBlock info.num_emb)).flatten := by
  unfold stateInitData
  congr 1
  simp [List.map_const]

/-- C2: for `num_layer ≥ 1`, `State::init` produces data of the declared
shape `(num_emb, 5*num_layer, 1, 1)` whose element at axis-1 index `c` and
axis-0 index `i` — flattened position `c*num_emb + i` by the layout — is the
minimum finite f32 when `c % 5 == 3` and `0.0` otherwise. -/
theorem c2_state_init (info : ModelInfo) (_hL : 1 ≤ info.num_layer) (i c : Nat)
    (hi : i < info.num_emb) (hc : c < 5 * info.num_layer) :
    stateInitShape info = ⟨info.num_emb, 5 * info.num_layer, 1, 1⟩ ∧
    (stateInitData info).length = (stateInitShape info).len ∧
    shapeIndex (stateInitShape info) ⟨i, c, 0, 0⟩ = c * info.num_emb + i ∧
    (stateInitData info)[c * info.num_emb + i]? =
      some (if c % 5 = 3 then f32Min else 0) := by
  refine ⟨rfl, ?_, ?_, ?_⟩
  · rw [stateInitData_eq, flatten_replicate_length, layerBlock_length]
    simp [Shape4.len, stateInitShape]
    ring
  · simp [shapeIndex, stateInitShape]
  · have hq : c / 5 < info.num_layer := by omega
    have hr : c % 5 < 5 := Nat.mod_lt _ (by norm_num)
    have hidx : c * info.num_emb + i =
        (c / 5) * (5 * info.num_emb) + ((c % 5) * info.num_emb + i) := by
      conv_lhs => rw [show c = 5 * (c / 5) + c % 5 from (Nat.div_add_mod c 5).symm]
      ring
    have hj : (c % 5) * info.num_emb + i < 5 * info.num_emb := by
      calc (c % 5) * info.num_emb + i < (c % 5) * info.num_emb + info.num_emb := by omega
        _ = (c % 5 + 1) * info.num_emb := by ring
        _ ≤ 5 * info.num_emb := Nat.mul_le_mul_right _ (by omega)
    rw [stateInitData_eq, hidx,
      show 5 * info.num_emb = (layerBlock info.num_emb).length from
        (layerBlock_length info.num_emb).symm,
      flatten_replicate_getElem _ _ _ _ hq (by rw [layerBlock_length]; omega)]
    exact layerBlock_getElem info.num_emb (c % 5) i hr hi

/-- Witness for C2 at a one-layer, one-channel model, position `c = 3`,
`i = 0` (the `pp` channel). -/
theorem c2_witness :
    stateInitShape info1 = ⟨1, 5, 1, 1⟩ ∧
    (stateInitData info1).length = (stateInitShape info1).len ∧
    shapeIndex (stateInitShape info1) ⟨0, 3, 0, 0⟩ = 3 * 1 + 0 ∧
    (stateInitData info1)[3 * 1 + 0]? = some (if 3 % 5 = 3 then f32Min else 0) := by
  have h := c2_state_init info1 (by decide) 0 3 (by decide) (by decide)
  simpa using h

/-! ## C10 — the multi-batch runtime state -/

theorem flatten_replicate_mul (xs : List ℚ) (a b : Nat) :
    (List.replicate (a * b) xs).flatten =
      (List.replicate b ((List.replicate a xs).flatten)).flatten := by
  induction b with
  | zero => simp
  | succ n ih =>
    rw [show a * (n + 1) = a + a * n by ring, List.replicate_add,
      List.flatten_append, ih, List.replicate_succ, List.flatten_cons]

theorem flatten_replicate_batch (xs : List ℚ) (n b : Nat) (hb : b < n) :
    (((List.replicate n xs).flatten).drop (b * xs.length)).take xs.length = xs := by
  induction b generalizing n with
  | zero =>
    cases n with
    | zero => omega
    | succ m =>
      rw [List.replicate_succ, List.flatten_cons]
      simp only [Nat.zero_mul, List.drop_zero]
      exact List.take_left xs (List.replicate m xs).flatten
  | succ k ih =>
    cases n with
    | zero => omega
    | succ m =>
      rw [List.replicate_succ, List.flatten_cons,
        show (k + 1) * xs.length = xs.length + k * xs.length by ring,
        ← List.drop_drop, List.drop_left]
      exact ih m (by omega)

/-- The runtime state data is `num_layer * num_batch` copies of the per-layer
block. -/
theorem runtimeStateData_eq (info : ModelInfo) (numBatch : Nat) :
    runtimeStateData info numBatch =
      (List.replicate (info.num_layer * numBatch) (layerBlock info.num_emb)).flatten := by
  unfold runtimeStateData
  congr 1
  simp [List.map_const]

/-- C10: the state allocated by `ModelRuntime::new` has shape
`(num_emb, 5*num_layer, B, 1)` and its contents are exactly `B` consecutive
copies of the canonical single-batch `State::init` pattern, so the segment of
any batch `b < B` (at offset `b * len(init)` by the layout) equals the init
data. -/
theorem c10_runtime_state (info : ModelInfo) (B b : Nat) (_hB : 1 ≤ B)
    (hb : b < B) :
    runtimeStateShape info B = ⟨info.num_emb, 5 * info.num_layer, B, 1⟩ ∧
    (runtimeStateData info B).length = (runtimeStateShape info B).len ∧
    runtimeStateData info B = (List.replicate B (stateInitData info)).flatten ∧
    ((runtimeStateData info B).drop (b * (stateInitData info).length)).take
      (stateInitData info).length = stateInitData info := by
  have hdata : runtimeStateData info B =
      (List.replicate B (stateInitData info)).flatten := by
    rw [runtimeStateData_eq, stateInitData_eq]
    exact flatten_replicate_mul _ _ _
  refine ⟨rfl, ?_, hdata, ?_⟩
  · rw [runtimeStateData_eq, flatten_replicate_length, layerBlock_length]
    simp [Shape4.len, runtimeStateShape]
    ring
  · rw [hdata]
    exact flatten_replicate_batch _ _ _ hb

/-- Witness for C10 at `B = 2`, `b = 1`, on the one-layer model. -/
theorem c10_witness :
    runtimeStateShape info1 2 = ⟨1, 5, 2, 1⟩ ∧
    (runtimeStateData info1 2).length = (runtimeStateShape info1 2).len ∧
    runtimeStateData info1 2 = (List.replicate 2 (stateInitData info1)).flatten ∧
    ((runtimeStateData info1 2).drop (1 * (stateInitData info1).length)).take
      (stateInitData info1).length = stateInitData info1 := by
  have h := c10_runtime_state info1 2 1 (by decide) (by decide)
  simpa using h

/-! ## C4 — the empty job -/

/-- A zero total token count means every batch is empty. -/
theorem numToken_zero (seed : List InferInfoBatch) (h : numToken seed = 0) :
    ∀ b ∈ seed, b.tokens.length = 0 := by
  intro b hb
  unfold numToken at h
  rw [List.sum_eq_zero_iff] at h
  exact h _ (List.mem_map_of_mem _ hb)

/-- When every batch is empty, the redirect scan yields no headers and only
empty output ranges at the current slot. -/
theorem redirectAux_zero (pin pout : Nat) (l : List InferInfoBatch)
    (h : ∀ b ∈ l, b.tokens.length = 0) :
    redirectAux pin pout l = ([], List.replicate l.length (pout, pout)) := by
  induction l generalizing pin with
  | nil => rfl
  | cons b rest ih =>
    have hb : b.tokens.length = 0 := h b (List.mem_cons_self b rest)
    rw [redirectAux]
    simp only [hb]
    rw [ih (pin + 0) fun x hx => h x (List.mem_cons_of_mem _ hx)]
    simp [List.replicate_succ]

/-- The fields of a successfully built job. -/
theorem build_fields (hooks : Hook → Bool) (eg : Bool) (info : ModelInfo)
    (seed : List InferInfoBatch) (job : InferJobM)
    (h : build hooks eg info seed = some job) :
    job.redirect = redirectOf seed ∧
    job.cursorsShape = ⟨numToken seed, 1, 1, 1⟩ ∧
    job.outputShape = ⟨info.num_vocab, (redirectOf seed).headers.length, 1, 1⟩ := by
  unfold build at h
  dsimp only at h
  split at h
  · cases h
    exact ⟨rfl, rfl, rfl⟩
  · rw [Option.map_eq_some'] at h
    obtain ⟨record, _, rfl⟩ := h
    exact ⟨rfl, rfl, rfl⟩

/-- Collecting slots over only-empty output ranges `(0,0)` succeeds with one
empty slot per entry. -/
theorem backSlots_zero_ranges (osh : Shape4) (n : Nat) :
    backSlots osh (List.replicate n (0, 0)) =
      some (List.replicate n ⟨osh.d0, 0, osh.d2, osh.d3⟩) := by
  induction n with
  | zero => rfl
  | succ m ih =>
    rw [List.replicate_succ]
    unfold backSlots sliceAxis1
    rw [if_pos ⟨Nat.le_refl 0, Nat.zero_le _⟩, ih, List.replicate_succ]

/-- The redirect of an all-empty infer info: no headers, one empty output
range per batch. -/
theorem redirectOf_zero (seed : List InferInfoBatch) (h : numToken seed = 0) :
    redirectOf seed = ⟨[], List.replicate seed.length (0, 0)⟩ := by
  unfold redirectOf
  rw [redirectAux_zero 0 0 seed (numToken_zero seed h)]

/-- C4: a build for `num_token == 0` yields a job with an empty command list
(so submit enqueues no device work); its `load` on a zero-token input uploads
nothing and returns the job unchanged; and `back` yields one slot per
`redirect.outputs` entry, each an empty tensor slice. -/
theorem c4_zero_token_build (hooks : Hook → Bool) (eg : Bool)
    (info : ModelInfo) (seed : List InferInfoBatch) (h0 : numToken seed = 0) :
    ∃ job, build hooks eg info seed = some job ∧
      job.commands = [] ∧
      (∀ input, numToken input = 0 → loadM job input = (job, [])) ∧
      ∃ slots, backM job = some slots ∧
        slots.length = job.redirect.outputs.length ∧
        ∀ sh ∈ slots, sh.len = 0 := by
  have hbuild : build hooks eg info seed = some
      { commands := []
        redirect := redirectOf seed
        embedGpu := eg
        cursorsShape := ⟨numToken seed, 1, 1, 1⟩
        tokensShape := ⟨numToken seed, 1, 1, 1⟩
        inputShape := ⟨info.num_emb, numToken seed, 1, 1⟩
        outputShape := ⟨info.num_vocab, (redirectOf seed).headers.length, 1, 1⟩ } := by
    unfold build
    dsimp only
    rw [if_pos h0]
  refine ⟨_, hbuild, rfl, ?_, ?_⟩
  · intro input hin
    unfold loadM
    rw [if_pos hin]
  · unfold backM
    dsimp only
    rw [redirectOf_zero seed h0]
    dsimp only
    rw [backSlots_zero_ranges]
    refine ⟨_, rfl, by simp, ?_⟩
    intro sh hsh
    rw [List.eq_of_mem_replicate hsh]
    simp [Shape4.len]

/-- Witness for C4 on a one-batch, zero-token infer info. -/
theorem c4_witness :
    ∃ job, build hooks0 false info1 [⟨[], true⟩] = some job ∧
      job.commands = [] ∧
      (∀ input, numToken input = 0 → loadM job input = (job, [])) ∧
      ∃ slots, backM job = some slots ∧
        slots.length = job.redirect.outputs.length ∧
        ∀ sh ∈ slots, sh.len = 0 :=
  c4_zero_token_build hooks0 false info1 [⟨[], true⟩] (by decide)

/-! ## C7 — the job fingerprint check -/

/-- C7: for every built job, `check(input, info)` is true iff the input's
token count equals the `num_token` the job was built with and the info's
redirect equals the redirect the job was built with. -/
theorem c7_check (hooks : Hook → Bool) (eg : Bool) (info : ModelInfo)
    (seed input info2 : List InferInfoBatch) (job : InferJobM)
    (hbuild : build hooks eg info seed = some job) :
    checkM job input info2 = true ↔
      (numToken input = numToken seed ∧ redirectOf info2 = redirectOf seed) := by
  obtain ⟨hrd, hcur, _⟩ := build_fields hooks eg info seed job hbuild
  unfold checkM
  rw [hrd, hcur]
  simp

/-- Witness for C7 on the explicitly written zero-token job. -/
theorem c7_witness :
    checkM
        { commands := []
          redirect := ⟨[], [(0, 0)]⟩
          embedGpu := false
          cursorsShape := ⟨0, 1, 1, 1⟩
          tokensShape := ⟨0, 1, 1, 1⟩
          inputShape := ⟨1, 0, 1, 1⟩
          outputShape := ⟨1, 0, 1, 1⟩ }
        [⟨[], false⟩] [⟨[], true⟩] = true ↔
      (numToken [⟨[], false⟩] = numToken [⟨[], true⟩] ∧
        redirectOf [⟨[], true⟩] = redirectOf [⟨[], true⟩]) :=
  c7_check hooks0 false info1 [⟨[], true⟩] [⟨[], false⟩] [⟨[], true⟩] _ (by rfl)

/-! ## C9 — PassId ordering and the deterministic sort -/

instance : IsTotal (Nat × List Op) fun a b => a.1 ≤ b.1 :=
  ⟨fun a b => Nat.le_total a.1 b.1⟩

instance : IsTrans (Nat × List Op) fun a b => a.1 ≤ b.1 :=
  ⟨fun _ _ _ h h' => Nat.le_trans h h'⟩

instance : IsTrans (Nat × List Op) fun a b => a.1 < b.1 :=
  ⟨fun _ _ _ h h' => Nat.lt_trans h h'⟩

instance : IsAntisymm (Nat × List Op) fun a b => a.1 < b.1 :=
  ⟨fun _ _ h h' => absurd (Nat.lt_trans h h') (Nat.lt_irrefl _)⟩

/-- Sorting any permutation of a strictly key-sorted list by key recovers
that list. -/
theorem sortByPassId_eq_of_perm (l m : List (Nat × List Op)) (hperm : l.Perm m)
    (hsorted : List.Pairwise (fun a b => a.1 < b.1) m) : sortByPassId l = m := by
  have hp : (sortByPassId l).Perm m := (List.perm_insertionSort _ l).trans hperm
  have hle : List.Sorted (fun a b : Nat × List Op => a.1 ≤ b.1) (sortByPassId l) :=
    List.sorted_insertionSort _ l
  have hne_m : List.Pairwise (fun a b : Nat × List Op => a.1 ≠ b.1) m :=
    hsorted.imp fun h => Nat.ne_of_lt h
  have hne : List.Pairwise (fun a b : Nat × List Op => a.1 ≠ b.1) (sortByPassId l) := by
    rw [List.Perm.pairwise_iff (fun h => Ne.symm h) hp]
    exact hne_m
  have hlt : List.Sorted (fun a b : Nat × List Op => a.1 < b.1) (sortByPassId l) :=
    (hle.and hne).imp fun h => Nat.lt_of_le_of_ne h.1 h.2
  exact List.eq_of_perm_of_sorted hp hlt hsorted

theorem range_cons_map_concat (L : Nat) :
    0 :: (((List.range L).map fun i => i + 1) ++ [L + 1]) = List.range (L + 2) := by
  rw [show L + 2 = (L + 1) + 1 by ring, List.range_succ, List.range_succ_eq_map]
  simp [Nat.succ_eq_add_one]

/-- The recorded `(PassId, buffer)` pairs carry the ids `0, 1, …, L+1` in
recording order, hence strictly increasing keys. -/
theorem buildRecord_shape (hooks : Hook → Bool) (eg : Bool) (info : ModelInfo)
    (nt : Nat) (headers : List Nat) (record : List (Nat × List Op))
    (h : buildRecord hooks eg info nt headers = some record) :
    record.map Prod.fst = List.range (info.num_layer + 2) ∧
    List.Pairwise (fun a b : Nat × List Op => a.1 < b.1) record := by
  obtain ⟨plan, _, rfl⟩ := Option.map_eq_some'.mp h
  have hfst : (((0, preludeOps hooks eg)
      :: ((List.range info.num_layer).map fun i => (i + 1, buildLayer hooks info i nt))
      ++ [(info.num_layer + 1, buildHeader hooks plan.1 plan.2 headers.length)]).map
        Prod.fst) = List.range (info.num_layer + 2) := by
    rw [← range_cons_map_concat]
    simp [List.map_map, Function.comp]
  refine ⟨hfst, ?_⟩
  have hpwr : List.Pairwise (· < ·) (List.range (info.num_layer + 2)) :=
    List.pairwise_lt_range _
  rw [← hfst, List.pairwise_map] at hpwr
  exact hpwr

/-- C9: the build assigns strictly increasing `PassId`s in recording order
(prelude, layers, header); the job's command list is the recorded buffers
sorted by `PassId`; and for any arrival order (permutation) of the
`(PassId, buffer)` pairs, the sorted result equals the sequential recording
order. -/
theorem c9_pass_order (hooks : Hook → Bool) (eg : Bool) (info : ModelInfo)
    (seed : List InferInfoBatch) (record : List (Nat × List Op))
    (h0 : ¬numToken seed = 0)
    (hrec : buildRecord hooks eg info (numToken seed) (redirectOf seed).headers
      = some record) :
    List.Chain' (fun a b => a.1 < b.1) record ∧
    (∃ job, build hooks eg info seed = some job ∧
      job.commands = record.map Prod.snd) ∧
    ∀ record2, record2.Perm record →
      (sortByPassId record2).map Prod.snd = record.map Prod.snd := by
  obtain ⟨hfst, hpw⟩ := buildRecord_shape hooks eg info _ _ record hrec
  refine ⟨List.chain'_iff_pairwise.mpr hpw, ?_, ?_⟩
  · have hb : build hooks eg info seed = some
        { commands := (sortByPassId record).map Prod.snd
          redirect := redirectOf seed
          embedGpu := eg
          cursorsShape := ⟨numToken seed, 1, 1, 1⟩
          tokensShape := ⟨numToken seed, 1, 1, 1⟩
          inputShape := ⟨info.num_emb, numToken seed, 1, 1⟩
          outputShape := ⟨info.num_vocab, (redirectOf seed).headers.length, 1, 1⟩ } := by
      unfold build
      dsimp only
      rw [if_neg h0, hrec]
      rfl
    refine ⟨_, hb, ?_⟩
    dsimp only
    rw [sortByPassId_eq_of_perm record record (List.Perm.refl _) hpw]
  · intro record2 hp
    rw [sortByPassId_eq_of_perm record2 record hp hpw]

/-- Witness for C9 on a one-layer model with a single token. -/
theorem c9_witness :
    List.Chain' (fun a b : Nat × List Op => a.1 < b.1)
      ((0, preludeOps hooks0 false)
        :: ((List.range info1.num_layer).map fun i => (i + 1, buildLayer hooks0 info1 i 1))
        ++ [(info1.num_layer + 1, buildHeader hooks0 [] .ffnX 1)]) ∧
    (∃ job, build hooks0 false info1 [⟨[0], true⟩] = some job ∧
      job.commands = ((0, preludeOps hooks0 false)
        :: ((List.range info1.num_layer).map fun i => (i + 1, buildLayer hooks0 info1 i 1))
        ++ [(info1.num_layer + 1, buildHeader hooks0 [] .ffnX 1)]).map Prod.snd) ∧
    ∀ record2, record2.Perm ((0, preludeOps hooks0 false)
        :: ((List.range info1.num_layer).map fun i => (i + 1, buildLayer hooks0 info1 i 1))
        ++ [(info1.num_layer + 1, buildHeader hooks0 [] .ffnX 1)]) →
      (sortByPassId record2).map Prod.snd =
        ((0, preludeOps hooks0 false)
          :: ((List.range info1.num_layer).map fun i => (i + 1, buildLayer hooks0 info1 i 1))
          ++ [(info1.num_layer + 1, buildHeader hooks0 [] .ffnX 1)]).map Prod.snd :=
  c9_pass_order hooks0 false info1 [⟨[0], true⟩] _ (by decide) (by rfl)

/-! ## C5 — the compact head blit plan -/

theorem chain'_lt_getD (l : List Nat) (h : List.Chain' (· < ·) l) (i : Nat)
    (hi : i + 1 < l.length) : l.getD i 0 < l.getD (i + 1) 0 := by
  rw [List.chain'_iff_get] at h
  have h2 := h i (by omega)
  rw [List.getD_eq_getElem l 0 (show i < l.length by omega),
    List.getD_eq_getElem l 0 hi]
  simpa using h2

/-- On a stepwise-contiguous index range, values grow by exactly the index
difference. -/
theorem steps_getD (headers : List Nat) (hstart hend : Nat)
    (hsteps : ∀ j, hstart ≤ j → j + 1 < hend →
      headers.getD j 0 + 1 = headers.getD (j + 1) 0) :
    ∀ i, hstart + i < hend →
      headers.getD (hstart + i) 0 = headers.getD hstart 0 + i := by
  intro i
  induction i with
  | zero => intro _; simp
  | succ k ih =>
    intro h
    have hk := ih (by omega)
    have hs := hsteps (hstart + k) (by omega) (by omega)
    have he : hstart + (k + 1) = hstart + k + 1 := by ring
    rw [he]
    omega

/-- A contiguous run of the headers list is a literal `range'`. -/
theorem take_drop_eq_range' (headers : List Nat) (hstart hend : Nat)
    (h1 : hstart < hend) (h2 : hend ≤ headers.length)
    (hsteps : ∀ j, hstart ≤ j → j + 1 < hend →
      headers.getD j 0 + 1 = headers.getD (j + 1) 0) :
    (headers.drop hstart).take (hend - hstart) =
      List.range' (headers.getD hstart 0) (hend - hstart) := by
  apply List.ext_getElem?
  intro j
  by_cases hj : j < hend - hstart
  · rw [List.getElem?_take, if_pos hj, List.getElem?_drop,
      List.getElem?_range' _ _ hj]
    have hlt : hstart + j < headers.length := by omega
    rw [List.getElem?_eq_getElem hlt]
    have hv := steps_getD headers hstart hend hsteps j (by omega)
    rw [List.getD_eq_getElem headers 0 hlt] at hv
    rw [hv]
    simp
  · have hlen1 : ((headers.drop hstart).take (hend - hstart)).length =
        hend - hstart := by
      rw [List.length_take, List.length_drop]
      omega
    rw [List.getElem?_eq_none (by omega), List.getElem?_eq_none (by simp; omega)]

theorem range'_split (s m n : Nat) :
    List.range' s (m + n) = List.range' s m ++ List.range' (s + m) n := by
  have h := List.range'_append s m n 1
  simp only [Nat.one_mul] at h
  rw [Nat.add_comm m n]
  exact h.symm

theorem zip_range'_eq_map (k : Nat) : ∀ a b : Nat,
    (List.range' a k).zip (List.range' b k) =
      (List.range k).map fun i => (a + i, b + i) := by
  induction k with
  | zero => intro a b; rfl
  | succ n ih =>
    intro a b
    rw [List.range'_succ, List.range'_succ, List.range_succ_eq_map]
    simp only [List.zip_cons_cons, List.map_cons, List.map_map]
    congr 1
    rw [ih (a + 1) (b + 1)]
    apply List.map_congr_left
    intro i _
    simp only [Function.comp_apply, Nat.succ_eq_add_one, Prod.mk.injEq]
    omega

/-- Full characterization of the head blit loop on a strictly increasing
header list: it succeeds (the source's assert holds), its blits copy exactly
the remaining header rows to consecutive destination rows, consecutive blits
have a source gap (maximality), and the first blit starts at the current
run's first header. -/
theorem headLoop_spec (headers : List Nat) (hchain : List.Chain' (· < ·) headers) :
    ∀ fuel hstart hend, headers.length + 1 - hend = fuel →
      hstart < hend → hend ≤ headers.length →
      (∀ j, hstart ≤ j → j + 1 < hend →
        headers.getD j 0 + 1 = headers.getD (j + 1) 0) →
      ∃ ops, headLoop headers hstart hend = some ops ∧
        rowPairs ops =
          (headers.drop hstart).zip (List.range' hstart (headers.length - hstart)) ∧
        List.Chain' (fun a b => blitGap a b = true) ops ∧
        ∃ e2 d rest,
          ops = Op.blit .ffnX .headX (headers.getD hstart 0, e2) d :: rest := by
  intro fuel
  induction fuel with
  | zero =>
    intro hstart hend hf h1 h2 _
    omega
  | succ f ih =>
    intro hstart hend hf h1 h2 hsteps
    have hlast : headers.getD (hend - 1) 0 =
        headers.getD hstart 0 + (hend - 1 - hstart) := by
      have hs := steps_getD headers hstart hend hsteps (hend - 1 - hstart) (by omega)
      rw [show hstart + (hend - 1 - hstart) = hend - 1 by omega] at hs
      exact hs
    have hassert : headers.getD (hend - 1) 0 - headers.getD hstart 0 + 1 =
        hend - hstart := by omega
    by_cases hL : hend = headers.length
    · -- final group: push the closing blit, then the loop exits
      rw [headLoop, dif_pos h2, if_pos (Or.inl hL)]
      dsimp only
      rw [if_pos hassert]
      have hstop : headLoop headers hend (hend + 1) = some [] := by
        rw [headLoop, dif_neg (by omega)]
      rw [hstop, Option.map_some']
      refine ⟨_, rfl, ?_, List.chain'_singleton _, ?_⟩
      · have hdrop : headers.drop hstart =
            List.range' (headers.getD hstart 0) (headers.length - hstart) := by
          have ht := take_drop_eq_range' headers hstart hend h1 h2 hsteps
          rw [hL] at ht
          rwa [List.take_of_length_le (by rw [List.length_drop])] at ht
        rw [hdrop, show headers.length - hstart = hend - hstart by omega,
          zip_range'_eq_map]
        show blitRows (Op.blit .ffnX .headX
          (headers.getD hstart 0, headers.getD (hend - 1) 0 + 1) (hstart, hend)) ++
          rowPairs [] = _
        simp only [blitRows, rowPairs, List.flatMap_nil, List.append_nil]
        rw [show headers.getD (hend - 1) 0 + 1 - headers.getD hstart 0 =
          hend - hstart by omega]
      · exact ⟨headers.getD (hend - 1) 0 + 1, (hstart, hend), [], rfl⟩
    · have hlt : hend < headers.length := by omega
      by_cases hb : headers.getD (hend - 1) 0 + 1 = headers.getD hend 0
      · -- the run continues: skip, no blit here
        rw [headLoop, dif_pos h2,
          if_neg (by push_neg; exact ⟨hL, by simpa using hb⟩)]
        have hsteps' : ∀ j, hstart ≤ j → j + 1 < hend + 1 →
            headers.getD j 0 + 1 = headers.getD (j + 1) 0 := by
          intro j hj hj2
          by_cases hcase : j + 1 < hend
          · exact hsteps j hj hcase
          · rw [show j = hend - 1 by omega, show hend - 1 + 1 = hend by omega]
            exact hb
        exact ih hstart (hend + 1) (by omega) (by omega) (by omega) hsteps'
      · -- group boundary: push the blit and start a fresh run
        rw [headLoop, dif_pos h2, if_pos (Or.inr hb)]
        dsimp only
        rw [if_pos hassert]
        obtain ⟨ops', hloop', hrow', hchain', e2', d', rest', hops'⟩ :=
          ih hend (hend + 1) (by omega) (by omega) (by omega)
            (fun j hj hj2 => absurd (by omega : j + 1 < j + 1) (by omega))
        rw [hloop', Option.map_some']
        refine ⟨_, rfl, ?_, ?_, ?_⟩
        · show blitRows (Op.blit .ffnX .headX
            (headers.getD hstart 0, headers.getD (hend - 1) 0 + 1) (hstart, hend)) ++
            rowPairs ops' = _
          have hsplit1 : headers.drop hstart =
              (headers.drop hstart).take (hend - hstart) ++ headers.drop hend := by
            conv_lhs => rw [← List.take_append_drop (hend - hstart) (headers.drop hstart)]
            rw [List.drop_drop, show hstart + (hend - hstart) = hend by omega]
          have hsplit2 : List.range' hstart (headers.length - hstart) =
              List.range' hstart (hend - hstart) ++
                List.range' hend (headers.length - hend) := by
            rw [show headers.length - hstart =
              (hend - hstart) + (headers.length - hend) by omega, range'_split,
              show hstart + (hend - hstart) = hend by omega]
          rw [hsplit1, hsplit2,
            List.zip_append (by rw [List.length_take, List.length_drop]; simp; omega)]
          congr 1
          · rw [take_drop_eq_range' headers hstart hend h1 (by omega) hsteps,
              zip_range'_eq_map]
            simp only [blitRows]
            rw [show headers.getD (hend - 1) 0 + 1 - headers.getD hstart 0 =
              hend - hstart by omega]
        · rw [hops']
          refine List.chain'_cons.mpr ⟨?_, hops' ▸ hchain'⟩
          have hadj : headers.getD (hend - 1) 0 < headers.getD hend 0 := by
            have hc := chain'_lt_getD headers hchain (hend - 1) (by omega)
            rwa [show hend - 1 + 1 = hend by omega] at hc
          simp only [blitGap, decide_eq_true_eq]
          omega
        · exact ⟨headers.getD (hend - 1) 0 + 1, (hstart, hend), ops', rfl⟩

/-- C5: with the sorted header positions strictly increasing, the head input
is the pipeline's `ffn_x` buffer itself exactly when `num_token == 1` or
`headers.len() == num_token`; otherwise the plan records blits that copy
exactly the rows of `ffn_x` at the header positions, grouped into maximal
contiguous runs (consecutive blits have a source gap), into consecutive rows
`[0, headers.len())` of the compact `head_x`. -/
theorem c5_head_plan (headers : List Nat) (nt : Nat)
    (hchain : List.Chain' (· < ·) headers) :
    ((nt = 1 ∨ nt = headers.length) → headPlan headers nt = some ([], BufId.ffnX)) ∧
    (¬(nt = 1 ∨ nt = headers.length) →
      ∃ ops, headPlan headers nt = some (ops, BufId.headX) ∧
        rowPairs ops = headers.zip (List.range headers.length) ∧
        List.Chain' (fun a b => blitGap a b = true) ops) := by
  constructor
  · intro h
    unfold headPlan
    rw [if_pos h]
  · intro h
    unfold headPlan
    rw [if_neg h]
    rcases Nat.eq_zero_or_pos headers.length with h0 | hpos
    · have hnil : headers = [] := List.length_eq_zero.mp h0
      subst hnil
      have hstop : headLoop [] 0 1 = some [] := by
        rw [headLoop, dif_neg (by simp)]
      rw [hstop, Option.map_some']
      exact ⟨[], rfl, rfl, List.chain'_nil⟩
    · obtain ⟨ops, hloop, hrow, hch, _⟩ :=
        headLoop_spec headers hchain (headers.length + 1 - 1) 0 1 (by omega)
          (by omega) (by omega) (fun j hj hj2 => absurd hj2 (by omega))
      rw [hloop, Option.map_some']
      refine ⟨ops, rfl, ?_, hch⟩
      rw [hrow, List.drop_zero, Nat.sub_zero, ← List.range_eq_range']

/-- Witness for C5 with headers `[0, 2]` and three tokens: two maximal runs,
each one row. -/
theorem c5_witness :
    ∃ ops, headPlan [0, 2] 3 = some (ops, BufId.headX) ∧
      rowPairs ops = [0, 2].zip (List.range [0, 2].length) ∧
      List.Chain' (fun a b => blitGap a b = true) ops :=
  (c5_head_plan [0, 2] 3 (by
    refine List.chain'_cons.mpr ⟨by omega, List.chain'_singleton 2⟩)).2 (by decide)
